import Mathlib

/-!
Verification development for the xlbricks handle store and range-ingestion layer.

The definitions below are shallow embeddings of the Python sources:
  xlbricks/libs/xlbricks_front.py      (XLBricksFront)
  xlbricks/libs/xlbricks_frontstack.py (front stack dict, add/delete)
  xlbricks/libs/utility_functions.py   (XLUtils: crop, reference lookup, get_bricks)
  xlbricks/libs/xlbricks.py            (XLBrick / XLBricks trees, replace, quantlib casts)
  xlbricks/libs/xlfunctions.py         (grid_create, function-object pipeline)
  xlbricks/xlbfunctions.py             (error boundary of the UDF shell)
Machine floats are modelled as rationals plus an explicit NaN constructor;
Python exceptions are modelled with an explicit error type and Except.
-/

namespace Xlb

/-- Scalar cell values as they arrive from the caller or live in brick trees.
Python floats are split into a rational payload and an explicit NaN case;
datetime and the external (QuantLib) date and object values get their own
constructors so the boundary coercion can be stated. -/
inductive PyVal where
  | vNone
  | vNan
  | vBool (b : Bool)
  | vInt (n : Int)
  | vFloat (q : ℚ)
  | vStr (s : String)
  | vDate (day month year : Nat)
  | vQlDate (day month year : Nat)
  | vQlObj (src : String)
  deriving DecidableEq, Repr

/-- Homogeneous dtype of a 2-D numpy block: all-string, mixed object, or numeric. -/
inductive NpDtype where
  | str
  | obj
  | num
  deriving DecidableEq, Repr

/-- Rectangular 2-D block of cells together with its numpy dtype
(the dtype decides the per-cell emptiness test, as in XLUtils.crop_range). -/
structure NpBlock where
  dtype : NpDtype
  rows : List (List PyVal)
  deriving DecidableEq, Repr

/-- Per-dtype emptiness test of crop_range: the string literal nan for string
blocks, null-likes for object blocks, IEEE NaN for numeric blocks. -/
def npIsNan : NpDtype → PyVal → Bool
  | .str, v => decide (v = .vStr "nan")
  | .obj, v => decide (v = .vNone) || decide (v = .vNan)
  | .num, v => decide (v = .vNan)

/-! ### Python dict modelled as an association list with unique keys.
Insertion updates an existing key in place (keeping its position) and
otherwise appends, matching dict insertion-order semantics. -/

/-- Lookup of a key in an association list (first match). -/
def dictGet {κ α : Type} [DecidableEq κ] : List (κ × α) → κ → Option α
  | [], _ => none
  | (k', v') :: t, k => if k' = k then some v' else dictGet t k

/-- Dict assignment: update in place if the key exists, else append. -/
def dictSet {κ α : Type} [DecidableEq κ] : List (κ × α) → κ → α → List (κ × α)
  | [], k, v => [(k, v)]
  | (k', v') :: t, k, v => if k' = k then (k, v) :: t else (k', v') :: dictSet t k v

/-- Dict deletion of a key (first occurrence; keys are unique). -/
def dictDel {κ α : Type} [DecidableEq κ] : List (κ × α) → κ → List (κ × α)
  | [], _ => []
  | (k', v') :: t, k => if k' = k then t else (k', v') :: dictDel t k

/-! ### Value trees: XLBrick (leaf) and XLBricks (composite). -/

/-- Payload of a leaf brick: a scalar cell, a 2-D array, or a flattened list. -/
inductive PVal where
  | cell (v : PyVal)
  | arr (b : NpBlock)
  | pyList (l : List PyVal)
  deriving DecidableEq, Repr

/-- Value tree: XLBrick is a leaf with an optional key and a payload;
XLBricks is a composite with an optional key and an ordered dict of children
(child keys are cell values, as grid ingestion keys children by raw cells). -/
inductive XLB where
  | brick (key : Option String) (value : PVal)
  | bricks (key : Option String) (children : List (PyVal × XLB))

/-- Discriminator: true exactly on leaf bricks. -/
def XLB.isBrick : XLB → Bool
  | .brick _ _ => true
  | .bricks _ _ => false

/-! ### Python exceptions relevant to the embedded code paths. -/

/-- Exception categories raised by the embedded code paths. -/
inductive PyErr where
  | indexError
  | keyError
  | attributeError
  | nameError
  | typeError
  | valueError (msg : String)
  deriving DecidableEq, Repr

/-- Exception class name, as type(e).__name__ renders it. -/
def pyErrName : PyErr → String
  | .indexError => "IndexError"
  | .keyError => "KeyError"
  | .attributeError => "AttributeError"
  | .nameError => "NameError"
  | .typeError => "TypeError"
  | .valueError _ => "ValueError"

/-- Exception message, as str(e) renders it (messages modelled loosely,
except ValueError which carries its text). -/
def pyErrMsg : PyErr → String
  | .indexError => "index 0 is out of bounds"
  | .keyError => "key not found"
  | .attributeError => "object has no attribute"
  | .nameError => "name is not defined"
  | .typeError => "type error"
  | .valueError m => m

/-! ### HandleWrapper: XLBricksFront (xlbricks_front.py). -/

/-- Wrapper of a value tree with alias, persistence flag, version counter and
a construction-time uuid (uuid1 is modelled as a constructor-supplied string). -/
structure XLBricksFront where
  counter : Nat
  aliasName : Option String
  xlbricks : XLB
  persist : Bool
  uuid : String

/-- Constructor of XLBricksFront: the version counter always starts at 0.
The first argument is the source's alias parameter. -/
def mkXLBricksFront (a : Option String) (xlb : XLB) (persist : Bool)
    (uuid : String) : XLBricksFront :=
  { counter := 0, aliasName := a, xlbricks := xlb, persist := persist, uuid := uuid }

/-- Identifier of the wrapper: the alias if persistent, else the uuid.
A persistent wrapper always carries an alias in the source; the default
covers the unreachable persistent-without-alias case. -/
def bricks_name (f : XLBricksFront) : String :=
  if f.persist then f.aliasName.getD "None" else f.uuid

/-- Reference string of the wrapper, formatted name:counter. -/
def bricks_full_name (f : XLBricksFront) : String :=
  bricks_name f ++ ":" ++ toString f.counter

/-- Process-wide front stack: the dict from name to latest wrapper. -/
abbrev Table := List (String × XLBricksFront)

/-- Registration (add_bricks_to_front_stack): if the name is already present,
the incoming wrapper's counter becomes the existing counter plus one; the
wrapper is then stored as the latest entry under the name. Returns the
(possibly updated) wrapper together with the new table. -/
def add_bricks_to_front_stack (f : XLBricksFront) (t : Table) :
    XLBricksFront × Table :=
  let n := bricks_name f
  match dictGet t n with
  | some e =>
      let f' := { f with counter := e.counter + 1 }
      (f', dictSet t n f')
  | none => (f, dictSet t n f)

/-- Reclamation (delete_bricks_from_front_stack): delete the entry under the
wrapper's name when the wrapper is non-persistent and the name is present.
The identity of the current entry is not inspected. -/
def delete_bricks_from_front_stack (f : XLBricksFront) (t : Table) : Table :=
  if f.persist = false ∧ (dictGet t (bricks_name f)).isSome then
    dictDel t (bricks_name f)
  else t

/-! ### Reference-string parsing (utility_functions.py). -/

/-- Python str.split on a single separator character: splitting the character
list at every occurrence of sep, keeping empty pieces, never returning an
empty list of pieces. -/
def pySplit (sep : Char) : List Char → List (List Char)
  | [] => [[]]
  | c :: cs =>
      let r := pySplit sep cs
      if c = sep then [] :: r
      else
        match r with
        | h :: t => (c :: h) :: t
        | [] => [[c]]

/-- Key extraction of get_bricks_front: join of split-on-colon with the last
piece dropped, as in the source expression joining data split on colon. -/
def refKey (s : String) : String :=
  String.mk (((pySplit ':' s.data).dropLast).flatten)

/-- Specification-side reading of the claim: everything before the last colon
of the string (defined independently of pySplit via reversal). -/
def beforeLastColon (s : String) : String :=
  String.mk (((s.data.reverse.dropWhile (fun c => decide (c ≠ ':'))).tail).reverse)

/-! ### Edge cropping (XLUtils.crop_range and its helper).
The four while loops of the helper are modelled one by one. The top and
left loops are unguarded in the source: on a block whose every row or
column is empty they delete everything and the next index access raises
IndexError, modelled by the none result. The bottom and right loops carry
an explicit index-positive guard and so stop at one remaining row/column. -/

/-- Top loop: delete row 0 while it is all-empty; indexing row 0 of an empty
block raises IndexError (none). -/
def cropTop (p : PyVal → Bool) : List (List PyVal) → Option (List (List PyVal))
  | [] => none
  | r :: rs => if r.all p then cropTop p rs else some (r :: rs)

/-- Left loop: delete column 0 while it is all-empty; indexing column 0 of a
zero-column block raises IndexError (none). -/
def cropLeft (p : PyVal → Bool) (rows : List (List PyVal)) :
    Option (List (List PyVal)) :=
  if h : (rows.headD []).length = 0 then none
  else if rows.all (fun r => (r.head?.map p).getD true) then
    cropLeft p (rows.map List.tail)
  else some rows
termination_by (rows.headD []).length
decreasing_by
  cases rows with
  | nil => simp at h
  | cons a rs =>
      simp only [List.headD_cons] at h
      cases a with
      | nil => simp at h
      | cons x xs => simp [List.headD_cons]

/-- Bottom loop: delete the last row while more than one row remains and the
last row is all-empty (the source guard keeps the row index positive). -/
def cropBottom (p : PyVal → Bool) (rows : List (List PyVal)) :
    List (List PyVal) :=
  if h : rows.length ≤ 1 then rows
  else if (rows.getLastD []).all p then cropBottom p rows.dropLast
  else rows
termination_by rows.length
decreasing_by
  simp only [List.length_dropLast]
  omega

/-- Right loop: delete the last column while more than one column remains and
the last column is all-empty (the source guard keeps the column index
positive). -/
def cropRight (p : PyVal → Bool) (rows : List (List PyVal)) :
    List (List PyVal) :=
  if h : (rows.headD []).length ≤ 1 then rows
  else if rows.all (fun r => (r.getLast?.map p).getD true) then
    cropRight p (rows.map List.dropLast)
  else rows
termination_by (rows.headD []).length
decreasing_by
  cases rows with
  | nil => simp at h
  | cons a rs =>
      simp only [List.headD_cons] at h
      simp only [List.map_cons, List.headD_cons, List.length_dropLast]
      omega

/-- Internal helper crop of the source: top loop, then left, then bottom,
then right, each evaluated against the block's current shape. -/
def crop_range_aux (p : PyVal → Bool) (rows : List (List PyVal)) :
    Option (List (List PyVal)) :=
  match cropTop p rows with
  | none => none
  | some r1 =>
      match cropLeft p r1 with
      | none => none
      | some r2 => some (cropRight p (cropBottom p r2))

/-- Crop of XLUtils.crop_range: dispatch on the block dtype for the emptiness
test, then run the four edge loops. -/
def crop_range (b : NpBlock) : Option NpBlock :=
  (crop_range_aux (npIsNan b.dtype) b.rows).map (fun rows => ⟨b.dtype, rows⟩)

/-! ### Value-tree navigation and replacement (xlbricks.py). -/

/-- Path resolution of XLBricks.__getitem__: an empty path yields the node
itself; otherwise each path element indexes the children dict. Reaching a
leaf with path remaining raises AttributeError (the source accesses the
bricks attribute of the node); a missing child key raises KeyError. -/
def getItem : XLB → List String → Except PyErr XLB
  | t, [] => .ok t
  | .brick _ _, _ :: _ => .error .attributeError
  | .bricks _ ch, k :: ks =>
      match dictGet ch (.vStr k) with
      | none => .error .keyError
      | some c => getItem c ks

/-- Functional rendering of an in-place mutation at the end of a resolving
path: rebuild the tree along the path, applying f to the addressed node.
Off-path structure is rebuilt unchanged; a path that fails to resolve leaves
the tree unchanged (callers only use it on resolving paths). -/
def updateAt : XLB → List String → (XLB → XLB) → XLB
  | t, [], f => f t
  | .bricks key ch, k :: ks, f =>
      .bricks key (ch.map (fun pr =>
        if pr.1 = .vStr k then (pr.1, updateAt pr.2 ks f) else pr))
  | t, _ :: _, _ => t
termination_by _ ks _ => ks.length
decreasing_by
  simp only [List.length_cons]
  omega

/-- Child-slot assignment used by the composite branch of replace: dict
assignment on a composite's children (a leaf parent is unreachable because
the full path resolved through it). -/
def setChildSlot (k : String) (v : XLB) : XLB → XLB
  | .bricks key ch => .bricks key (dictSet ch (.vStr k) v)
  | t => t

/-- Payload assignment used by the leaf branch of replace: overwrite the
value attribute of a leaf, keeping its key; on a composite the source
setattr creates an unused attribute, leaving the tree unchanged. -/
def setValueAttr (nv : PVal) : XLB → XLB
  | .brick key _ => .brick key nv
  | t => t

/-- Replacement of XLBricks.replace: resolve the target at the path; if the
new value is a composite, assign it wholesale into the parent's child slot
at the last path element (an empty path raises IndexError at the last-element
access); otherwise overwrite the target's payload attribute with the new
leaf's payload. A path that does not resolve propagates the lookup error. -/
def replaceXLB (t : XLB) (keys : List String) (v : XLB) : Except PyErr XLB :=
  match getItem t keys with
  | .error e => .error e
  | .ok target =>
      match v with
      | .bricks _ _ =>
          match keys.getLast? with
          | none => .error .indexError
          | some lastK => .ok (updateAt t keys.dropLast (setChildSlot lastK v))
      | .brick _ nv =>
          match target with
          | .brick _ _ => .ok (updateAt t keys (setValueAttr nv))
          | .bricks _ _ => .ok t

/-! ### Reference detection and lookup (XLUtils). -/

/-- Reference test of XLUtils.is_bricks_front_name: shape is exactly 1x1, the
single cell is a string, and the string contains a colon. -/
def is_bricks_front_name (b : NpBlock) : Bool :=
  match b.rows with
  | [[.vStr s]] => s.data.contains ':'
  | _ => false

/-- Cell at position 0,0 of a block (used only after the 1x1 shape test). -/
def cell00 (b : NpBlock) : PyVal :=
  (b.rows.headD []).headD .vNan

/-- Reference lookup of XLUtils.get_bricks_front: when the block passes the
reference test, extract the key (join of split-on-colon minus the last piece)
and return the front-stack entry, which is absent for unregistered keys;
otherwise report not-a-reference (none). -/
def get_bricks_front (b : NpBlock) (t : Table) : Option XLBricksFront :=
  if is_bricks_front_name b then
    match cell00 b with
    | .vStr s => dictGet t (refKey s)
    | _ => none
  else none

/-! ### Numeric coercion of string blocks (pandas to_numeric per column,
errors ignored: a column converts only when every cell parses). -/

/-- Parse a list of decimal digit characters to a natural number; none on an
empty list or any non-digit. -/
def parseDigits (cs : List Char) : Option Nat :=
  if cs ≠ [] ∧ cs.all Char.isDigit then
    some (cs.foldl (fun a c => a * 10 + (c.toNat - 48)) 0)
  else none

/-- Parse a Python-style decimal literal (optional minus sign, digits,
optional fractional part) to a rational, with a flag telling whether the
literal was integral. -/
def pyToNumericQ (s : String) : Option (ℚ × Bool) :=
  let cs := s.data
  let (neg, body) := match cs with
    | '-' :: r => (true, r)
    | _ => (false, cs)
  let applySign : ℚ → ℚ := fun q => if neg then -q else q
  match body.splitOn '.' with
  | [ip] => (parseDigits ip).map (fun n => (applySign n, true))
  | [ip, fp] =>
      match parseDigits ip, parseDigits fp with
      | some n, some m =>
          some (applySign ((n : ℚ) + (m : ℚ) / ((10 : ℚ) ^ fp.length)), false)
      | _, _ => none
  | _ => none

/-- Column conversion of pd.to_numeric with errors ignored: if every cell of
the column parses as a number the column becomes numeric (an integer column
when every literal is integral, else a float column); otherwise the column is
returned unchanged. -/
def toNumericColumn (col : List PyVal) : List PyVal :=
  match col.mapM (fun v => match v with
    | .vStr s => pyToNumericQ s
    | _ => none) with
  | none => col
  | some qs =>
      if qs.all (fun p => p.2) then qs.map (fun p => .vInt p.1.num)
      else qs.map (fun p => .vFloat p.1)

/-- Column-wise numeric coercion of a string block, as the DataFrame apply
of to_numeric over columns. -/
def coerceStrBlock (rows : List (List PyVal)) : List (List PyVal) :=
  (rows.transpose.map toNumericColumn).transpose

/-- Ingestion of XLUtils.get_bricks: crop the block (IndexError propagates),
resolve it as a reference; a non-reference string block gets numeric coercion
and is wrapped as a keyless leaf; a resolved reference is retired from the
table when non-persistent and its value tree is returned. The table is
threaded explicitly. -/
def get_bricks (b : NpBlock) (t : Table) : Except PyErr (XLB × Table) :=
  match crop_range b with
  | none => .error .indexError
  | some b' =>
      match get_bricks_front b' t with
      | none =>
          let rows :=
            if b'.dtype = .str then coerceStrBlock b'.rows else b'.rows
          .ok (.brick none (.arr ⟨b'.dtype, rows⟩), t)
      | some front =>
          .ok (front.xlbricks, delete_bricks_from_front_stack front t)

/-! ### Grid parsing (xlfunctions.grid_create). -/

/-- Indices of the True entries of a boolean vector, ascending, as
np.argwhere flattened. -/
def argwhereTrue : List Bool → List Nat
  | [] => []
  | b :: bs =>
      let r := (argwhereTrue bs).map (· + 1)
      if b then 0 :: r else r

/-- Key-row indices of grid_create: rows whose column-0 cell is non-empty
under the block's dtype-specific emptiness test. -/
def keysIdx (b : NpBlock) : List Nat :=
  argwhereTrue (b.rows.map (fun r => !(npIsNan b.dtype (r.headD .vNan))))

/-- Key cell of a grid row: the raw column-0 cell at the given row. -/
def gridKey (b : NpBlock) (i : Nat) : PyVal :=
  ((b.rows.drop i).headD []).headD .vNan

/-- Sub-block of a grid spanning rows from f inclusive to s exclusive and
every column except column 0. -/
def gridSub (b : NpBlock) (f s : Nat) : NpBlock :=
  ⟨b.dtype, ((b.rows.drop f).take (s - f)).map (List.drop 1)⟩

/-- Sub-block of a grid spanning rows from f inclusive to the bottom and
every column except column 0. -/
def gridSubFrom (b : NpBlock) (f : Nat) : NpBlock :=
  ⟨b.dtype, (b.rows.drop f).map (List.drop 1)⟩

/-- Loop of grid_create over consecutive key-index pairs: each pair adds a
child named by the key cell at the first index, built by get_bricks from the
spanned sub-block; the table is threaded through each ingestion. -/
def gridLoop (b : NpBlock) :
    List (Nat × Nat) → List (PyVal × XLB) → Table →
    Except PyErr (List (PyVal × XLB) × Table)
  | [], acc, t => .ok (acc, t)
  | (f, s) :: ps, acc, t =>
      match get_bricks (gridSub b f s) t with
      | .error e => .error e
      | .ok (child, t') => gridLoop b ps (dictSet acc (gridKey b f) child) t'

/-- Grid ingestion of grid_create: find the key rows; pair consecutive key
indices to build the inner children, then the last key consumes the remaining
rows. With fewer than two key rows the pairing loop never executes, the
last-pair index variable is never bound, and the trailing access raises
NameError. -/
def grid_create (b : NpBlock) (t : Table) : Except PyErr (XLB × Table) :=
  let ks := keysIdx b
  match ks with
  | [] => .error .nameError
  | [_] => .error .nameError
  | _ :: _ :: _ =>
      match gridLoop b (ks.zip ks.tail) [] t with
      | .error e => .error e
      | .ok (acc, t1) =>
          let lastIdx := ks.getLastD 0
          match get_bricks (gridSubFrom b lastIdx) t1 with
          | .error e => .error e
          | .ok (child, t2) =>
              .ok (.bricks none (dictSet acc (gridKey b lastIdx) child), t2)

/-! ### Boundary coercion to external (QuantLib) types (xlbricks.py). -/

/-- Python str.lower modelled on the character list. -/
def pyLower (s : String) : String := String.mk (s.data.map Char.toLower)

/-- Python str.strip on whitespace, modelled on the character list. -/
def pyStrip (s : String) : String :=
  String.mk (((s.data.dropWhile Char.isWhitespace).reverse.dropWhile
    Char.isWhitespace).reverse)

/-- Per-value coercion of cast_quantlib_variable: datetime becomes the
external date; a float with integral value becomes an integer; a string with
the external marker head becomes an externally evaluated object; a string
whose lowercasing is true or false goes through the Python bool constructor,
whose value on a string is its non-emptiness; everything else passes
through. -/
def cast_quantlib_variable (x : PyVal) : PyVal :=
  match x with
  | .vDate d m y => .vQlDate d m y
  | .vFloat q => if q.den = 1 then .vInt q.num else .vFloat q
  | .vStr s =>
      if s.data.take 3 = ['q', 'l', '.'] then .vQlObj s
      else if pyLower s = "true" ∨ pyLower s = "false" then .vBool (!s.data.isEmpty)
      else .vStr s
  | v => v

/-! ### Function-object pipeline (xlfunctions.create_function_objects). -/

/-- Rendering of Python str on cell values, used by the line sanitizer
(only string cells are exercised by the claims; other constructors get a
plain rendering). -/
def pyStr : PyVal → String
  | .vNone => "None"
  | .vNan => "nan"
  | .vBool b => if b then "True" else "False"
  | .vInt n => toString n
  | .vFloat q => toString q.num ++ "/" ++ toString q.den
  | .vStr s => s
  | .vDate d m y => toString y ++ "-" ++ toString m ++ "-" ++ toString d
  | .vQlDate d m y => toString y ++ "-" ++ toString m ++ "-" ++ toString d
  | .vQlObj s => s

/-- Line sanitizer func_line_sanitize: null and NaN cells and blank or
nan-only strings become the empty line; any other line is preserved with its
indentation. -/
def func_line_sanitize (cell : PyVal) : String :=
  match cell with
  | .vNone => ""
  | .vNan => ""
  | c =>
      let s := pyStr c
      if pyStrip s = "" then ""
      else if pyLower (pyStrip s) = "nan" then ""
      else s

/-- Segment-start test of the source mask: the first piece of the line split
on single space characters is exactly from, import or def; the empty line
yields the empty first piece. -/
def segKeyword (line : String) : Bool :=
  let first := if line = "" then "" else String.mk ((pySplit ' ' line.data).headD [])
  first = "from" || first = "import" || first = "def"

/-- Piecewise split of np.array_split at ascending indices: pieces before the
first index, between consecutive indices, and after the last index. -/
def arraySplitAt {α : Type} (xs : List α) (idxs : List Nat) : List (List α) :=
  List.zipWith (fun a b => (xs.drop a).take (b - a)) (0 :: idxs)
    (idxs ++ [xs.length])

/-- Prepend an element to the first piece of a piece list (the singleton
piece list when there is none). -/
def consHead {α : Type} (x : α) : List (List α) → List (List α)
  | [] => [[x]]
  | p :: ps => (x :: p) :: ps

/-- Python rstrip on whitespace: drop trailing whitespace characters. -/
def pyRstrip (s : String) : String :=
  String.mk ((s.data.reverse.dropWhile Char.isWhitespace).reverse)

/-- Block-body completion of ensure_block_has_body: a segment ending with a
colon after trimming trailing whitespace receives a synthetic no-op body. -/
def ensure_block_has_body (code : String) : String :=
  if (pyRstrip code).data.getLast? = some ':' then code ++ "\n    pass"
  else code

/-- Segment extraction of create_function_objects: build the keyword mask
over sanitized lines, split the raw column at the mask indices, discard the
piece before the first keyword, join each remaining piece with newlines after
sanitizing its lines, and complete unterminated block headers. -/
def funcSegments (cells : List PyVal) : List String :=
  let mask := cells.map (fun c => segKeyword (func_line_sanitize c))
  let starts := argwhereTrue mask
  let pieces := arraySplitAt cells starts
  ((pieces.drop 1).map (fun piece =>
    String.intercalate "\n" (piece.map func_line_sanitize))).map
    ensure_block_has_body

/-- Composite assembly of create_function_objects: the segments are executed
in order against one shared namespace and the named values of the final
namespace become keyless leaf children. Python exec semantics is supplied as
the execSeg parameter (arbitrary code execution is outside the embedding). -/
def create_function_objects
    (execSeg : String → List (String × PyVal) → List (String × PyVal))
    (cells : List PyVal) : XLB :=
  let ns := (funcSegments cells).foldl (fun acc s => execSeg s acc) []
  .bricks none (ns.map (fun pr => (.vStr pr.1, .brick none (.cell pr.2))))

/-- Specification-side first whitespace-delimited token of a line: skip
leading whitespace, take until the next whitespace. -/
def wsFirstToken (line : String) : String :=
  String.mk ((line.data.dropWhile Char.isWhitespace).takeWhile
    (fun c => !c.isWhitespace))

/-- Specification-side segment-start test as the claim words it: the first
whitespace-delimited token is exactly from, import or def. -/
def segKeywordWs (line : String) : Bool :=
  let first := wsFirstToken line
  first = "from" || first = "import" || first = "def"

/-- Specification-side segment extraction under the claim's whitespace
reading: the same pipeline with the whitespace-delimited keyword test. -/
def specSegmentsWs (cells : List PyVal) : List String :=
  let mask := cells.map (fun c => segKeywordWs (func_line_sanitize c))
  let starts := argwhereTrue mask
  let pieces := arraySplitAt cells starts
  ((pieces.drop 1).map (fun piece =>
    String.intercalate "\n" (piece.map func_line_sanitize))).map
    ensure_block_has_body

/-- Direct recursive segmentation: discard lines before the first keyword
line, then group each keyword line with the non-keyword lines that follow
it. Used to characterize the array-split pipeline. -/
def directSegs : List String → List (List String)
  | [] => []
  | l :: ls =>
      if segKeyword l then
        (l :: ls.takeWhile (fun x => !segKeyword x)) ::
          directSegs (ls.dropWhile (fun x => !segKeyword x))
      else directSegs ls
termination_by ls => ls.length
decreasing_by
  · exact Nat.lt_succ_of_le (List.dropWhile_sublist _).length_le
  · exact Nat.lt_succ_self _

/-! ### UDF error boundary (xlbfunctions.py and the XLBricksFunction
decorator of utility_functions.py). -/

/-- Fixed marker with which every boundary error message begins. -/
def errorMarker : String := "#XLB ERROR: "

/-- Formatting of the return_errors decorator: a successful result passes
through; an exception becomes the marker followed by the exception class
name, a separator, and the exception message. -/
def return_errors_fmt (r : Except PyErr String) : String :=
  match r with
  | .ok s => s
  | .error e => errorMarker ++ pyErrName e ++ ": " ++ pyErrMsg e

/-- Producing-operation wrapper of XLBricksFunction: run the core against the
current table; on success register the resulting wrapper and return its
reference string; an exception propagates together with the table as the
core left it (mutations already performed by the core persist). -/
def xlbricks_function_wrap
    (core : Table → Except PyErr XLBricksFront × Table) (t : Table) :
    Except PyErr String × Table :=
  match core t with
  | (.error e, t1) => (.error e, t1)
  | (.ok front, t1) =>
      let p := add_bricks_to_front_stack front t1
      (.ok (bricks_full_name p.1), p.2)

/-- Externally-exposed operation: validate first (a validation failure is
returned as its message before any core logic runs), then run the wrapped
core and format any exception at the boundary. Always returns a plain string
and the resulting table. -/
def run_udf (check : Option String)
    (core : Table → Except PyErr XLBricksFront × Table) (t : Table) :
    String × Table :=
  match check with
  | some msg => (msg, t)
  | none =>
      let r := xlbricks_function_wrap core t
      (return_errors_fmt r.1, r.2)

/-! ### Concrete demonstration values used by counterexamples and witnesses. -/

/-- Demonstration value tree: a keyless leaf holding the integer 7. -/
def demoTree : XLB := .brick none (.cell (.vInt 7))

/-- Registered wrapper of the resolution counterexample, stored under the
plain name n. -/
def regW : XLBricksFront := mkXLBricksFront (some "n") demoTree true "w-uuid"

/-- Table of the resolution counterexample: one entry under the name n. -/
def regTable : Table := [("n", regW)]

/-- Non-persistent wrapper whose synthetic name is the string u. -/
def nonPersistA : XLBricksFront :=
  mkXLBricksFront none (.brick none (.cell (.vInt 1))) false "u"

/-- Persistent wrapper aliased u, distinct from nonPersistA. -/
def persistB : XLBricksFront :=
  { counter := 3, aliasName := some "u", xlbricks := .brick none (.cell (.vInt 2)),
    persist := true, uuid := "w" }

/-- Table holding persistB under the name u. -/
def tableUB : Table := [("u", persistB)]

/-- Non-persistent wrapper registered under its own uuid u, for the
ephemeral-consumption witness. -/
def ephemW : XLBricksFront := mkXLBricksFront none demoTree false "u"

/-- Tree with two leaf children, for the replacement counterexample. -/
def twoLeafTree : XLB :=
  .bricks none
    [(.vStr "a", .brick none (.cell (.vInt 1))),
     (.vStr "b", .brick none (.cell (.vInt 2)))]

/-- Empty composite used as the replacing value. -/
def emptyComposite : XLB := .bricks none []

/-- Seven-row two-column string grid with key rows at indices 0, 2 and 5. -/
def demoGrid7 : NpBlock := ⟨.str,
  [[.vStr "a", .vStr "x1"],
   [.vStr "nan", .vStr "x2"],
   [.vStr "b", .vStr "x3"],
   [.vStr "nan", .vStr "x4"],
   [.vStr "nan", .vStr "x5"],
   [.vStr "c", .vStr "x6"],
   [.vStr "nan", .vStr "x7"]]⟩

/-- Two-row grid with exactly one key row. -/
def demoGrid1Key : NpBlock :=
  ⟨.str, [[.vStr "k", .vStr "x"], [.vStr "nan", .vStr "y"]]⟩

/-- Source lines of the function-definition scenario. -/
def demoFuncCells : List PyVal := [.vStr "def f():", .vStr "    return 42"]

/-- Source lines with an indented import, separating the single-space and
whitespace readings of segment starts. -/
def demoFuncCellsIndent : List PyVal := [.vStr "def f():", .vStr "  import os"]

/-- Divergence of two paths: they disagree at some position reached by both
(neither is a prefix of the other up to that point). Nodes addressed by a
diverging path lie outside the subtree touched by a replacement. -/
def pathDiverges : List String → List String → Prop
  | [], _ => False
  | _, [] => False
  | a :: as, b :: bs => a ≠ b ∨ pathDiverges as bs

/-! ## Helper lemmas -/

theorem dictGet_set_self {κ α : Type} [DecidableEq κ] (t : List (κ × α))
    (k : κ) (v : α) : dictGet (dictSet t k v) k = some v := by
  induction t with
  | nil => simp [dictSet, dictGet]
  | cons pr ps ih =>
      obtain ⟨k', v'⟩ := pr
      by_cases h : k' = k
      · simp [dictSet, dictGet, h]
      · simp [dictSet, dictGet, h, ih]

theorem dictGet_set_other {κ α : Type} [DecidableEq κ] (t : List (κ × α))
    (k k' : κ) (v : α) (hne : k' ≠ k) :
    dictGet (dictSet t k v) k' = dictGet t k' := by
  have hne' : ¬ k = k' := fun hh => hne hh.symm
  induction t with
  | nil => simp [dictSet, dictGet, hne']
  | cons pr ps ih =>
      obtain ⟨a, b⟩ := pr
      by_cases h : a = k
      · subst h
        simp [dictSet, dictGet, hne']
      · by_cases h' : a = k'
        · subst h'
          simp [dictSet, dictGet, h]
        · simp [dictSet, dictGet, h, h', ih]

theorem dictGet_eq_none_of_not_mem {κ α : Type} [DecidableEq κ]
    (t : List (κ × α)) (k : κ) (h : k ∉ t.map Prod.fst) : dictGet t k = none := by
  induction t with
  | nil => simp [dictGet]
  | cons pr ps ih =>
      obtain ⟨a, b⟩ := pr
      simp only [List.map_cons, List.mem_cons, not_or] at h
      have h1 : ¬ a = k := fun hh => h.1 hh.symm
      simp [dictGet, h1, ih h.2]

theorem dictGet_del_self {κ α : Type} [DecidableEq κ] (t : List (κ × α))
    (k : κ) (huniq : (t.map Prod.fst).Nodup) :
    dictGet (dictDel t k) k = none := by
  induction t with
  | nil => simp [dictDel, dictGet]
  | cons pr ps ih =>
      obtain ⟨a, b⟩ := pr
      simp only [List.map_cons, List.nodup_cons] at huniq
      by_cases h : a = k
      · subst h
        have : a ∉ ps.map Prod.fst := huniq.1
        simp [dictDel, dictGet_eq_none_of_not_mem ps a this]
      · simp [dictDel, dictGet, h, ih huniq.2]

theorem dictGet_del_other {κ α : Type} [DecidableEq κ] (t : List (κ × α))
    (k k' : κ) (hne : k' ≠ k) :
    dictGet (dictDel t k) k' = dictGet t k' := by
  have hne' : ¬ k = k' := fun hh => hne hh.symm
  induction t with
  | nil => simp [dictDel]
  | cons pr ps ih =>
      obtain ⟨a, b⟩ := pr
      by_cases h : a = k
      · subst h
        simp [dictDel, dictGet, hne']
      · by_cases h' : a = k'
        · subst h'
          simp [dictDel, dictGet, h]
        · simp [dictDel, dictGet, h, h', ih]

theorem pySplit_ne_nil (sep : Char) (cs : List Char) : pySplit sep cs ≠ [] := by
  induction cs with
  | nil => simp [pySplit]
  | cons c cs ih =>
      by_cases h : c = sep
      · simp [pySplit, h]
      · cases hr : pySplit sep cs with
        | nil => exact absurd hr ih
        | cons hh tt => simp [pySplit, h, hr]

theorem pySplit_flatten (sep : Char) (cs : List Char) :
    (pySplit sep cs).flatten = cs.filter (fun c => decide (c ≠ sep)) := by
  induction cs with
  | nil => simp [pySplit]
  | cons c cs ih =>
      by_cases h : c = sep
      · subst h
        simp [pySplit, List.filter_cons, ih]
      · cases hr : pySplit sep cs with
        | nil => exact absurd hr (pySplit_ne_nil sep cs)
        | cons hh tt =>
            have := ih
            rw [hr] at this
            simp [pySplit, h, hr, List.filter_cons]
            simpa using this

theorem pySplit_of_not_mem (sep : Char) (cs : List Char) (h : sep ∉ cs) :
    pySplit sep cs = [cs] := by
  induction cs with
  | nil => simp [pySplit]
  | cons c cs ih =>
      simp only [List.mem_cons, not_or] at h
      have h1 : ¬ c = sep := fun hh => h.1 hh.symm
      rw [pySplit, ih h.2]
      simp [h1]

theorem pySplit_append_last (sep : Char) (pre post : List Char)
    (h : sep ∉ post) :
    pySplit sep (pre ++ sep :: post) = pySplit sep pre ++ [post] := by
  induction pre with
  | nil =>
      simp only [List.nil_append, pySplit, pySplit_of_not_mem sep post h]
      simp [pySplit]
  | cons c pre ih =>
      by_cases hc : c = sep
      · simp only [List.cons_append]
        rw [pySplit, pySplit, ih]
        simp [hc]
      · simp only [List.cons_append]
        rw [pySplit, pySplit, ih]
        cases hp : pySplit sep pre with
        | nil => exact absurd hp (pySplit_ne_nil sep pre)
        | cons hh tt => simp [hc, hp]

theorem dropWhile_append_of_all {α : Type} (p : α → Bool) (l1 l2 : List α)
    (h : ∀ x ∈ l1, p x = true) :
    List.dropWhile p (l1 ++ l2) = List.dropWhile p l2 := by
  induction l1 with
  | nil => simp
  | cons a l1 ih =>
      have ha : p a = true := h a (by simp)
      simp only [List.cons_append, List.dropWhile_cons, ha, if_true]
      exact ih (fun x hx => h x (by simp [hx]))

theorem refKey_decomp (pre post : List Char) (h : ':' ∉ post) :
    refKey (String.mk (pre ++ ':' :: post)) =
      String.mk (pre.filter (fun c => decide (c ≠ ':'))) := by
  simp only [refKey, pySplit_append_last ':' pre post h, List.dropLast_concat,
    pySplit_flatten]

theorem beforeLastColon_decomp (pre post : List Char) (h : ':' ∉ post) :
    beforeLastColon (String.mk (pre ++ ':' :: post)) = String.mk pre := by
  have hall : ∀ x ∈ post.reverse, (fun c => decide (c ≠ ':')) x = true := by
    intro x hx
    simp only [decide_eq_true_eq]
    intro hxx
    exact h (by simpa [hxx] using List.mem_reverse.mp hx)
  simp only [beforeLastColon]
  rw [show (pre ++ ':' :: post).reverse = post.reverse ++ ':' :: pre.reverse by
    simp]
  rw [dropWhile_append_of_all _ post.reverse (':' :: pre.reverse) hall]
  simp [List.dropWhile_cons]

theorem refKey_concat_colonfree (n v : String) (hn : ':' ∉ n.data)
    (hv : ':' ∉ v.data) : refKey (n ++ ":" ++ v) = n := by
  have hdata : (n ++ ":" ++ v).data = n.data ++ ':' :: v.data := by
    simp [String.data_append]
  simp only [refKey, hdata, pySplit_append_last ':' n.data v.data hv,
    pySplit_of_not_mem ':' n.data hn, List.dropLast_concat]
  simp

/-! ## Claim theorems -/

/-- Claim C3 (code bug): cropping a fully empty block does not terminate with
a minimal empty remainder; the unguarded top loop deletes every row and the
next row access raises IndexError. Shown on a one-by-one all-empty string
block and on a two-by-two all-NaN numeric block. -/
theorem crop_empty_block_index_error :
    crop_range ⟨.str, [[.vStr "nan"]]⟩ = none
    ∧ crop_range ⟨.num, [[.vNan, .vNan], [.vNan, .vNan]]⟩ = none := by
  exact ⟨rfl, rfl⟩

/-- Claim C9 (code bug): the strings false and FALSE are not coerced to the
boolean false; the source applies the Python bool constructor to the
non-empty string, producing true in every matched case. -/
theorem cast_false_string_truthiness :
    cast_quantlib_variable (.vStr "false") = .vBool true
    ∧ cast_quantlib_variable (.vStr "FALSE") = .vBool true
    ∧ cast_quantlib_variable (.vStr "true") = .vBool true
    ∧ cast_quantlib_variable (.vStr "TRUE") = .vBool true := by
  refine ⟨?_, ?_, ?_, ?_⟩ <;> rfl

/-- Claim C10 (counterexample): with the name n registered, a one-by-one
block holding the reference with suffix 0:0 (a non-numeric suffix string)
does not resolve to the registered wrapper: the extracted key drops the
inner colon, so the lookup misses. -/
theorem version_ignored_counterexample :
    dictGet regTable "n" = some regW
    ∧ get_bricks_front ⟨.str, [[.vStr "n:0:0"]]⟩ regTable = none := by
  exact ⟨rfl, rfl⟩

/-- Claim C10 (amended): for a registered name and a version suffix that are
both free of colons, resolution returns the table's current entry for the
name, whatever the suffix is (the version segment is never compared), and an
unregistered name yields absent. -/
theorem version_ignored_amended (t : Table) (n v : String)
    (hn : ':' ∉ n.data) (hv : ':' ∉ v.data) :
    get_bricks_front ⟨.str, [[.vStr (n ++ ":" ++ v)]]⟩ t = dictGet t n := by
  have hdata : (n ++ ":" ++ v).data = n.data ++ ':' :: v.data := by
    simp [String.data_append]
  have hcontains : (n ++ ":" ++ v).data.contains ':' = true := by
    rw [hdata]; simp
  simp [get_bricks_front, is_bricks_front_name, cell00, hcontains,
    refKey_concat_colonfree n v hn hv]

/-- Witness for the amended C10 theorem at a concrete reference. -/
theorem version_ignored_amended_witness :
    get_bricks_front ⟨.str, [[.vStr ("n" ++ ":" ++ "7")]]⟩ regTable =
      dictGet regTable "n" :=
  version_ignored_amended regTable "n" "7" (by decide) (by decide)

/-- Claim C4 (counterexample): the block holding a:b:0 passes the reference
test, but the key used for the lookup is ab, not the text a:b before the
last colon: the source joins the colon-split pieces without the colons. -/
theorem reference_name_counterexample :
    is_bricks_front_name ⟨.str, [[.vStr "a:b:0"]]⟩ = true
    ∧ refKey "a:b:0" = "ab"
    ∧ beforeLastColon "a:b:0" = "a:b"
    ∧ refKey "a:b:0" ≠ beforeLastColon "a:b:0" := by
  refine ⟨rfl, rfl, rfl, by decide⟩

/-- Claim C4 (amended): a block is a reference exactly when it is one-by-one,
its cell is a string and the string contains a colon; every other block
reports not-a-reference; for a reference the lookup key is everything before
the last colon with the remaining colons removed (join of the colon-split
pieces without the last piece). -/
theorem reference_resolution_amended :
    (∀ b : NpBlock, is_bricks_front_name b = true ↔
      ∃ s, b.rows = [[.vStr s]] ∧ ':' ∈ s.data)
    ∧ (∀ (b : NpBlock) (t : Table), is_bricks_front_name b = false →
        get_bricks_front b t = none)
    ∧ (∀ (s : String) (t : Table), s.data.contains ':' = true →
        get_bricks_front ⟨.str, [[.vStr s]]⟩ t = dictGet t (refKey s))
    ∧ (∀ pre post : List Char, ':' ∉ post →
        refKey (String.mk (pre ++ ':' :: post)) =
          String.mk (pre.filter (fun c => decide (c ≠ ':')))
        ∧ beforeLastColon (String.mk (pre ++ ':' :: post)) = String.mk pre) := by
  refine ⟨?_, ?_, ?_, ?_⟩
  · intro b
    obtain ⟨d, rows⟩ := b
    match rows with
    | [] => simp [is_bricks_front_name]
    | [r] =>
        match r with
        | [] => simp [is_bricks_front_name]
        | [c] =>
            cases c <;> simp [is_bricks_front_name]
        | c1 :: c2 :: cs => simp [is_bricks_front_name]
    | r1 :: r2 :: rs => simp [is_bricks_front_name]
  · intro b t h
    simp [get_bricks_front, h]
  · intro s t h
    have h' : ':' ∈ s.data := by simpa using h
    simp [get_bricks_front, is_bricks_front_name, cell00, h']
  · intro pre post h
    exact ⟨refKey_decomp pre post h, beforeLastColon_decomp pre post h⟩

/-- Witness for the amended C4 theorem at concrete inputs. -/
theorem reference_resolution_amended_witness :
    get_bricks_front ⟨.str, [[.vStr "k:2"]]⟩ regTable = dictGet regTable (refKey "k:2")
    ∧ refKey (String.mk (['a', ':', 'b'] ++ ':' :: ['0'])) = String.mk ['a', 'b'] := by
  refine ⟨reference_resolution_amended.2.2.1 "k:2" regTable (by decide), ?_⟩
  have h := (reference_resolution_amended.2.2.2 ['a', ':', 'b'] ['0'] (by decide)).1
  simpa using h

/-- Claim C1 (counterexample): retiring the non-persistent wrapper A whose
name is u removes the table entry for u even though the current entry under
u is the distinct persistent wrapper B: the source checks only name
membership, never the identity of the current entry. -/
theorem retire_identity_counterexample :
    nonPersistA.persist = false
    ∧ bricks_name nonPersistA = "u"
    ∧ (dictGet tableUB "u").map XLBricksFront.persist = some true
    ∧ delete_bricks_from_front_stack nonPersistA tableUB = [] := by
  refine ⟨rfl, rfl, rfl, rfl⟩

/-- Claim C1 (amended): retire removes the entry under the wrapper's name
whenever the wrapper is non-persistent and the name is present, regardless
of which wrapper currently occupies the entry; a persistent wrapper is never
removed by this path, and no other entry is touched. Consequently, ingesting
the reference string of a non-persistent wrapper consumes it: the ingestion
returns its value tree with the entry deleted, and a second lookup under the
same name is absent. -/
theorem retire_amended (f : XLBricksFront) (t : Table) :
    (f.persist = true → delete_bricks_from_front_stack f t = t)
    ∧ (dictGet t (bricks_name f) = none →
        delete_bricks_from_front_stack f t = t)
    ∧ (f.persist = false → ∀ w, dictGet t (bricks_name f) = some w →
        (t.map Prod.fst).Nodup →
        dictGet (delete_bricks_from_front_stack f t) (bricks_name f) = none
        ∧ ∀ n, n ≠ bricks_name f →
            dictGet (delete_bricks_from_front_stack f t) n = dictGet t n)
    ∧ (∀ (n v : String) (w : XLBricksFront),
        ':' ∉ n.data → ':' ∉ v.data →
        dictGet t n = some w → w.persist = false → bricks_name w = n →
        (t.map Prod.fst).Nodup →
        get_bricks ⟨.str, [[.vStr (n ++ ":" ++ v)]]⟩ t =
          .ok (w.xlbricks, dictDel t n)
        ∧ dictGet (dictDel t n) n = none) := by
  refine ⟨?_, ?_, ?_, ?_⟩
  · intro hp
    simp [delete_bricks_from_front_stack, hp]
  · intro habs
    simp [delete_bricks_from_front_stack, habs]
  · intro hp w hw huniq
    have hcond : f.persist = false ∧ (dictGet t (bricks_name f)).isSome := by
      exact ⟨hp, by simp [hw]⟩
    constructor
    · simp only [delete_bricks_from_front_stack, if_pos hcond]
      exact dictGet_del_self t (bricks_name f) huniq
    · intro n hn
      simp only [delete_bricks_from_front_stack, if_pos hcond]
      exact dictGet_del_other t (bricks_name f) n hn
  · intro n v w hn hv hget hpersist hname huniq
    have hdata : (n ++ ":" ++ v).data = n.data ++ ':' :: v.data := by
      simp [String.data_append]
    have hmem : ':' ∈ (n ++ ":" ++ v).data := by rw [hdata]; simp
    have hsnan : ¬ (n ++ ":" ++ v) = "nan" := by
      intro hh
      rw [hh] at hmem
      exact absurd hmem (by decide)
    have hcrop : crop_range ⟨.str, [[.vStr (n ++ ":" ++ v)]]⟩ =
        some ⟨.str, [[.vStr (n ++ ":" ++ v)]]⟩ := by
      simp [crop_range, crop_range_aux, cropTop, cropLeft, cropBottom,
        cropRight, npIsNan, hsnan]
    have hkey := refKey_concat_colonfree n v hn hv
    have hfront : get_bricks_front ⟨.str, [[.vStr (n ++ ":" ++ v)]]⟩ t =
        some w := by
      simp [get_bricks_front, is_bricks_front_name, cell00, hmem, hkey, hget]
    have hdelete : delete_bricks_from_front_stack w t = dictDel t n := by
      simp [delete_bricks_from_front_stack, hname, hget, hpersist]
    constructor
    · simp [get_bricks, hcrop, hfront, hdelete]
    · exact dictGet_del_self t n huniq

/-- Witness for the amended C1 theorem: a persistent no-op, a removal, and a
consumed reference at concrete inputs. -/
theorem retire_amended_witness :
    delete_bricks_from_front_stack persistB tableUB = tableUB
    ∧ get_bricks ⟨.str, [[.vStr ("u" ++ ":" ++ "0")]]⟩ [("u", ephemW)] =
        .ok (ephemW.xlbricks, dictDel [("u", ephemW)] "u")
    ∧ dictGet (dictDel [("u", ephemW)] "u") "u" = none := by
  refine ⟨(retire_amended persistB tableUB).1 rfl, ?_, ?_⟩
  · exact ((retire_amended ephemW [("u", ephemW)]).2.2.2 "u" "0" ephemW
      (by decide) (by decide) rfl rfl rfl (by simp)).1
  · exact ((retire_amended ephemW [("u", ephemW)]).2.2.2 "u" "0" ephemW
      (by decide) (by decide) rfl rfl rfl (by simp)).2

/-- Claim C2 (confirmed): registration is strictly monotonic per name. When
an entry exists under the wrapper's name the incoming wrapper's version
becomes the existing version plus one and it is stored as the latest; when
no entry exists the version is unchanged (a newly constructed wrapper starts
at 0); registering fresh wrappers under one absent name in sequence yields
versions 0, 1, 2; and retirement never alters any stored wrapper, so
registration is the only operation that advances versions. -/
theorem register_monotonic (f : XLBricksFront) (t : Table) :
    (∀ e, dictGet t (bricks_name f) = some e →
      (add_bricks_to_front_stack f t).1.counter = e.counter + 1)
    ∧ (dictGet t (bricks_name f) = none →
      (add_bricks_to_front_stack f t).1.counter = f.counter)
    ∧ dictGet (add_bricks_to_front_stack f t).2 (bricks_name f) =
        some (add_bricks_to_front_stack f t).1
    ∧ (∀ (a : Option String) (xlb : XLB) (p : Bool) (u : String),
        (mkXLBricksFront a xlb p u).counter = 0)
    ∧ (∀ (n : String) (f1 f2 f3 : XLBricksFront),
        dictGet t n = none →
        f1.counter = 0 → f2.counter = 0 → f3.counter = 0 →
        bricks_name f1 = n → bricks_name f2 = n → bricks_name f3 = n →
        (add_bricks_to_front_stack f1 t).1.counter = 0
        ∧ (add_bricks_to_front_stack f2
            (add_bricks_to_front_stack f1 t).2).1.counter = 1
        ∧ (add_bricks_to_front_stack f3
            (add_bricks_to_front_stack f2
              (add_bricks_to_front_stack f1 t).2).2).1.counter = 2)
    ∧ (∀ (g : XLBricksFront) (n : String) (w : XLBricksFront),
        (t.map Prod.fst).Nodup →
        dictGet (delete_bricks_from_front_stack g t) n = some w →
        dictGet t n = some w) := by
  refine ⟨?_, ?_, ?_, ?_, ?_, ?_⟩
  · intro e he
    simp [add_bricks_to_front_stack, he]
  · intro habs
    simp [add_bricks_to_front_stack, habs]
  · cases hget : dictGet t (bricks_name f) with
    | none => simp [add_bricks_to_front_stack, hget, dictGet_set_self]
    | some e => simp [add_bricks_to_front_stack, hget, dictGet_set_self]
  · intro a xlb p u
    rfl
  · intro n f1 f2 f3 habs hc1 hc2 hc3 hb1 hb2 hb3
    have s1 : add_bricks_to_front_stack f1 t = (f1, dictSet t n f1) := by
      simp [add_bricks_to_front_stack, hb1, habs]
    have g1 : dictGet (dictSet t n f1) n = some f1 := dictGet_set_self t n f1
    have s2 : (add_bricks_to_front_stack f2 (dictSet t n f1)).2 =
        dictSet (dictSet t n f1) n { f2 with counter := f1.counter + 1 } := by
      simp [add_bricks_to_front_stack, hb2, g1]
    refine ⟨by simp [s1, hc1], ?_, ?_⟩
    · rw [s1]
      simp [add_bricks_to_front_stack, hb2, g1, hc1]
    · rw [s1, s2]
      simp [add_bricks_to_front_stack, hb3, dictGet_set_self, hc1]
  · intro g n w huniq h
    by_cases hcond : g.persist = false ∧ (dictGet t (bricks_name g)).isSome
    · rw [delete_bricks_from_front_stack, if_pos hcond] at h
      by_cases hn : n = bricks_name g
      · subst hn
        rw [dictGet_del_self t (bricks_name g) huniq] at h
        exact absurd h (by simp)
      · rwa [dictGet_del_other t (bricks_name g) n hn] at h
    · rwa [delete_bricks_from_front_stack, if_neg hcond] at h

/-- Witness for the C2 theorem: registering the same fresh wrapper twice
under its absent name yields versions 0 then 1. -/
theorem register_monotonic_witness :
    (add_bricks_to_front_stack ephemW []).1.counter = ephemW.counter
    ∧ (add_bricks_to_front_stack ephemW
        (add_bricks_to_front_stack ephemW []).2).1.counter = 1 := by
  have h := register_monotonic ephemW ([] : Table)
  exact ⟨h.2.1 rfl,
    (h.2.2.2.2.1 "u" ephemW ephemW ephemW rfl rfl rfl rfl rfl rfl rfl).2.1⟩

/-- Claim C7 (confirmed): a validation failure is returned as its message
before any core logic runs, with the table untouched; any exception raised
by the core is converted at the boundary into a single marker-prefixed
string carrying the exception class name and message, and the result table
is exactly the table the core left, so a failed producing operation never
registers a wrapper. -/
theorem udf_error_boundary (check : Option String)
    (core : Table → Except PyErr XLBricksFront × Table) (t : Table) :
    (∀ msg, check = some msg → run_udf check core t = (msg, t))
    ∧ (check = none → ∀ e t1, core t = (.error e, t1) →
        run_udf check core t =
          (errorMarker ++ pyErrName e ++ ": " ++ pyErrMsg e, t1)
        ∧ (errorMarker.data).isPrefixOf
            (run_udf check core t).1.data = true) := by
  constructor
  · intro msg h
    subst h
    rfl
  · intro hc e t1 hcore
    subst hc
    have hout : run_udf none core t =
        (errorMarker ++ pyErrName e ++ ": " ++ pyErrMsg e, t1) := by
      simp [run_udf, xlbricks_function_wrap, hcore, return_errors_fmt]
    refine ⟨hout, ?_⟩
    rw [hout]
    have hdata : (errorMarker ++ pyErrName e ++ ": " ++ pyErrMsg e).data =
        errorMarker.data ++
          ((pyErrName e).data ++ (": " ++ pyErrMsg e).data) := by
      simp [String.data_append]
    rw [hdata, List.isPrefixOf_iff_prefix]
    exact List.prefix_append _ _

/-- Witness for the C7 theorem: a concrete failing core against a concrete
table produces the marker-prefixed message and leaves the table as the core
left it. -/
theorem udf_error_boundary_witness :
    run_udf none (fun tb => (.error (.valueError "boom"), tb)) regTable =
      ("#XLB ERROR: ValueError: boom", regTable) := by
  have h := (udf_error_boundary none
    (fun tb => (.error (.valueError "boom"), tb)) regTable).2 rfl
    (.valueError "boom") regTable rfl
  simpa using h.1

/-- Claim C5 (code bug): a grid whose first column holds exactly one key row
does not produce a composite with one child spanning all rows; the pairing
loop over consecutive key indices never executes, its index variable is
never bound, and the trailing access raises NameError (the same happens with
no key rows, where the claim expects EmptyGrid). With key rows at indices 0,
2 and 5 of a seven-row block, the produced composite has exactly the three
children spanning rows 0-2, 2-5 and 5-7 without column 0. -/
theorem grid_single_key_name_error :
    grid_create demoGrid1Key [] = .error .nameError
    ∧ keysIdx demoGrid7 = [0, 2, 5]
    ∧ grid_create demoGrid7 [] = .ok (.bricks none
        [(.vStr "a", .brick none (.arr ⟨.str, [[.vStr "x1"], [.vStr "x2"]]⟩)),
         (.vStr "b", .brick none
           (.arr ⟨.str, [[.vStr "x3"], [.vStr "x4"], [.vStr "x5"]]⟩)),
         (.vStr "c", .brick none (.arr ⟨.str, [[.vStr "x6"], [.vStr "x7"]]⟩))],
        []) := by
  refine ⟨rfl, rfl, ?_⟩
  simp [grid_create, keysIdx, argwhereTrue, npIsNan, gridLoop, gridSub,
    gridSubFrom, gridKey, get_bricks, crop_range, crop_range_aux, cropTop,
    cropLeft, cropBottom, cropRight, get_bricks_front, is_bricks_front_name,
    cell00, coerceStrBlock, toNumericColumn, pyToNumericQ, parseDigits,
    dictSet, demoGrid7]
  decide

theorem getItem_append (p q : List String) (t : XLB) :
    getItem t (p ++ q) = match getItem t p with
      | .error e => .error e
      | .ok m => getItem m q := by
  induction p generalizing t with
  | nil => simp [getItem]
  | cons a as ih =>
      cases t with
      | brick key val => simp [getItem]
      | bricks key ch =>
          cases hg : dictGet ch (.vStr a) with
          | none => simp [getItem, hg]
          | some c => simp [getItem, hg, ih]

theorem dictGet_map_upd_eq (ch : List (PyVal × XLB)) (k : PyVal)
    (u : XLB → XLB) :
    dictGet (ch.map (fun pr => if pr.1 = k then (pr.1, u pr.2) else pr)) k
      = (dictGet ch k).map u := by
  induction ch with
  | nil => simp [dictGet]
  | cons pr ps ih =>
      obtain ⟨a, b⟩ := pr
      simp only [List.map_cons]
      by_cases ha : a = k
      · subst ha
        rw [if_pos]
        · simp [dictGet, ih]
        · rfl
      · rw [if_neg]
        · simp [dictGet, ha, ih]
        · simpa using ha

theorem dictGet_map_upd_other (ch : List (PyVal × XLB)) (k k' : PyVal)
    (u : XLB → XLB) (hne : k' ≠ k) :
    dictGet (ch.map (fun pr => if pr.1 = k then (pr.1, u pr.2) else pr)) k'
      = dictGet ch k' := by
  have hne' : ¬ k = k' := fun hh => hne hh.symm
  induction ch with
  | nil => simp [dictGet]
  | cons pr ps ih =>
      obtain ⟨a, b⟩ := pr
      simp only [List.map_cons]
      by_cases ha : a = k
      · subst ha
        rw [if_pos]
        · simp [dictGet, hne', ih]
        · rfl
      · rw [if_neg]
        · by_cases ha' : a = k'
          · subst ha'
            simp [dictGet]
          · simp [dictGet, ha', ih]
        · simpa using ha

theorem getItem_updateAt_self (p : List String) (t m : XLB) (f : XLB → XLB)
    (h : getItem t p = .ok m) :
    getItem (updateAt t p f) p = .ok (f m) := by
  induction p generalizing t with
  | nil =>
      simp only [getItem, Except.ok.injEq] at h
      subst h
      simp [updateAt, getItem]
  | cons a as ih =>
      cases t with
      | brick key val => simp [getItem] at h
      | bricks key ch =>
          cases hg : dictGet ch (.vStr a) with
          | none => simp [getItem, hg] at h
          | some c =>
              simp only [getItem, hg] at h
              rw [updateAt]
              simp only [getItem, dictGet_map_upd_eq ch (.vStr a)
                (fun x => updateAt x as f), hg, Option.map_some']
              exact ih c h

theorem getItem_updateAt_append (p q : List String) (t m : XLB)
    (f : XLB → XLB) (h : getItem t p = .ok m) :
    getItem (updateAt t p f) (p ++ q) = getItem (f m) q := by
  rw [getItem_append, getItem_updateAt_self p t m f h]

theorem updateAt_frame (p q : List String) (t : XLB) (f : XLB → XLB)
    (hdiv : pathDiverges p q) :
    getItem (updateAt t p f) q = getItem t q := by
  induction p generalizing t q with
  | nil => exact absurd hdiv (by simp [pathDiverges])
  | cons a as ih =>
      cases q with
      | nil => exact absurd hdiv (by simp [pathDiverges])
      | cons qh qt =>
          cases t with
          | brick key val =>
              have hupd : updateAt (XLB.brick key val) (a :: as) f =
                  XLB.brick key val := by
                rw [updateAt.eq_def]
              rw [hupd]
          | bricks key ch =>
              have hdiv' : a ≠ qh ∨ pathDiverges as qt := hdiv
              rw [updateAt]
              by_cases hab : a = qh
              · subst hab
                have hdiv'' : pathDiverges as qt := by
                  rcases hdiv' with h1 | h2
                  · exact absurd rfl h1
                  · exact h2
                simp only [getItem, dictGet_map_upd_eq ch (.vStr a)
                  (fun x => updateAt x as f)]
                cases hg : dictGet ch (.vStr a) with
                | none => simp
                | some c =>
                    simp only [Option.map_some']
                    exact ih qt c hdiv''
              · have hq : ¬ qh = a := fun hh => hab hh.symm
                have hne : (PyVal.vStr qh) ≠ (PyVal.vStr a) := by
                  simpa using hq
                simp only [getItem, dictGet_map_upd_other ch (.vStr a)
                  (.vStr qh) (fun x => updateAt x as f) hne]

theorem setSlot_frame (p : List String) (k : String) (v : XLB)
    (q : List String) (t target : XLB)
    (h : getItem t (p ++ [k]) = .ok target)
    (hdiv : pathDiverges (p ++ [k]) q) :
    getItem (updateAt t p (setChildSlot k v)) q = getItem t q := by
  induction p generalizing t q with
  | nil =>
      cases t with
      | brick key val => simp [getItem] at h
      | bricks key ch =>
          cases q with
          | nil => exact absurd hdiv (by simp [pathDiverges])
          | cons qh qt =>
              have hdiv' : k ≠ qh ∨ pathDiverges [] qt := hdiv
              have hne : k ≠ qh := by
                rcases hdiv' with h1 | h2
                · exact h1
                · exact absurd h2 (by simp [pathDiverges])
              have hne' : (PyVal.vStr qh) ≠ (PyVal.vStr k) := by
                simpa using fun hh => hne hh.symm
              rw [updateAt]
              simp only [setChildSlot, getItem,
                dictGet_set_other ch (.vStr k) (.vStr qh) v hne']
  | cons a as ih =>
      cases t with
      | brick key val => simp [getItem] at h
      | bricks key ch =>
          cases hgc : dictGet ch (.vStr a) with
          | none => simp [getItem, hgc] at h
          | some c =>
              simp only [List.cons_append, getItem, hgc] at h
              cases q with
              | nil => exact absurd hdiv (by simp [pathDiverges])
              | cons qh qt =>
                  have hdiv' : a ≠ qh ∨ pathDiverges (as ++ [k]) qt := hdiv
                  rw [updateAt]
                  by_cases hab : a = qh
                  · subst hab
                    have hdiv'' : pathDiverges (as ++ [k]) qt := by
                      rcases hdiv' with h1 | h2
                      · exact absurd rfl h1
                      · exact h2
                    simp only [getItem, dictGet_map_upd_eq ch (.vStr a)
                      (fun x => updateAt x as (setChildSlot k v)), hgc,
                      Option.map_some']
                    exact ih qt c h hdiv''
                  · have hq : ¬ qh = a := fun hh => hab hh.symm
                    have hne : (PyVal.vStr qh) ≠ (PyVal.vStr a) := by
                      simpa using hq
                    simp only [getItem, dictGet_map_upd_other ch (.vStr a)
                      (.vStr qh) (fun x => updateAt x as (setChildSlot k v))
                      hne]

/-- Claim C6 (counterexample): replacing at a path whose target is a Leaf
with a Composite new value does not overwrite only the Leaf's payload while
preserving the node: the dispatch is on the new value's type, so the
parent's child slot is overwritten wholesale and the slot no longer holds a
leaf. -/
theorem replace_leaf_counterexample :
    getItem twoLeafTree ["a"] = .ok (.brick none (.cell (.vInt 1)))
    ∧ replaceXLB twoLeafTree ["a"] emptyComposite = .ok (.bricks none
        [(.vStr "a", emptyComposite),
         (.vStr "b", .brick none (.cell (.vInt 2)))])
    ∧ XLB.isBrick emptyComposite = false := by
  refine ⟨rfl, ?_, rfl⟩
  simp [replaceXLB, getItem, dictGet, twoLeafTree, emptyComposite, updateAt,
    setChildSlot, dictSet]

/-- Claim C6 (amended): replace dispatches on the type of the new value, not
of the target. When the path fails to resolve, the lookup error propagates
and nothing is replaced. When the new value is a Composite and the path
resolves non-trivially, the parent's child slot at the last path element is
overwritten wholesale with the new value, and every node addressed by a path
diverging from the replaced one is unchanged. When the new value is a Leaf
and the target is a Leaf, only the target's payload is overwritten: its key
and position are preserved, and diverging paths are unchanged. -/
theorem replace_amended (t : XLB) (keys : List String) (v : XLB) :
    (∀ e, getItem t keys = .error e → replaceXLB t keys v = .error e)
    ∧ (∀ vk vch target, v = .bricks vk vch → getItem t keys = .ok target →
        ∀ h : keys ≠ [],
        replaceXLB t keys v =
          .ok (updateAt t keys.dropLast (setChildSlot (keys.getLast h) v))
        ∧ getItem (updateAt t keys.dropLast
            (setChildSlot (keys.getLast h) v)) keys = .ok v
        ∧ ∀ q, pathDiverges keys q →
            getItem (updateAt t keys.dropLast
              (setChildSlot (keys.getLast h) v)) q = getItem t q)
    ∧ (∀ vk nv tk w, v = .brick vk nv → getItem t keys = .ok (.brick tk w) →
        replaceXLB t keys v = .ok (updateAt t keys (setValueAttr nv))
        ∧ getItem (updateAt t keys (setValueAttr nv)) keys =
            .ok (.brick tk nv)
        ∧ ∀ q, pathDiverges keys q →
            getItem (updateAt t keys (setValueAttr nv)) q = getItem t q) := by
  refine ⟨?_, ?_, ?_⟩
  · intro e he
    simp [replaceXLB, he]
  · intro vk vch target hv htgt h
    subst hv
    obtain ⟨p, k, hpk⟩ : ∃ p k, keys = p ++ [k] :=
      ⟨keys.dropLast, keys.getLast h, (List.dropLast_append_getLast h).symm⟩
    subst hpk
    have hdl : (p ++ [k]).dropLast = p := List.dropLast_concat
    have hgl : (p ++ [k]).getLast h = k := by
      have h1 : (p ++ [k]).getLast? = some ((p ++ [k]).getLast h) :=
        List.getLast?_eq_getLast _ h
      have h2 : (p ++ [k]).getLast? = some k := by simp
      exact Option.some.inj (h1.symm.trans h2)
    rw [hdl, hgl]
    refine ⟨?_, ?_, ?_⟩
    · have hlast : (p ++ [k]).getLast? = some k := by simp
      simp [replaceXLB, htgt, hlast]
    · have happ := getItem_append p [k] t
      rw [htgt] at happ
      cases hm : getItem t p with
      | error e =>
          rw [hm] at happ
          exact absurd happ (by simp)
      | ok m =>
          rw [hm] at happ
          cases m with
          | brick mk mv => simp [getItem] at happ
          | bricks mk mch =>
              rw [getItem_updateAt_append p [k] t (.bricks mk mch) _ hm]
              simp [setChildSlot, getItem, dictGet_set_self]
    · intro q hq
      exact setSlot_frame p k (XLB.bricks vk vch) q t target htgt hq
  · intro vk nv tk w hv htgt
    subst hv
    refine ⟨?_, ?_, ?_⟩
    · simp [replaceXLB, htgt]
    · rw [getItem_updateAt_self keys t (.brick tk w) _ htgt]
      simp [setValueAttr]
    · intro q hq
      exact updateAt_frame keys q t _ hq

/-- Witness for the amended C6 theorem: the composite branch at a concrete
two-leaf tree, checking both the overwritten slot and the untouched
sibling. -/
theorem replace_amended_witness :
    getItem (updateAt twoLeafTree (["a"].dropLast)
      (setChildSlot (["a"].getLast (by simp)) emptyComposite)) ["a"] =
        .ok emptyComposite
    ∧ getItem (updateAt twoLeafTree (["a"].dropLast)
      (setChildSlot (["a"].getLast (by simp)) emptyComposite)) ["b"] =
        getItem twoLeafTree ["b"] := by
  have h := (replace_amended twoLeafTree ["a"] emptyComposite).2.1 none []
    (.brick none (.cell (.vInt 1))) rfl rfl (by simp)
  exact ⟨h.2.1, h.2.2 ["b"] (Or.inl (by decide))⟩

theorem argwhereTrue_cons_true (bs : List Bool) :
    argwhereTrue (true :: bs) = 0 :: (argwhereTrue bs).map (· + 1) := rfl

theorem argwhereTrue_cons_false (bs : List Bool) :
    argwhereTrue (false :: bs) = (argwhereTrue bs).map (· + 1) := rfl

theorem arraySplitAt_ne_nil {α : Type} (xs : List α) (idxs : List Nat) :
    arraySplitAt xs idxs ≠ [] := by
  cases idxs <;> simp [arraySplitAt]

theorem arraySplitAt_zero_cons {α : Type} (xs : List α) (idxs : List Nat) :
    arraySplitAt xs (0 :: idxs) = [] :: arraySplitAt xs idxs := by
  cases idxs <;> simp [arraySplitAt]

theorem zipWith_map_succ {α : Type} (x : α) (xs : List α)
    (l1 l2 : List Nat) :
    List.zipWith (fun a b => ((x :: xs).drop a).take (b - a))
      (l1.map (· + 1)) (l2.map (· + 1))
      = List.zipWith (fun a b => (xs.drop a).take (b - a)) l1 l2 := by
  induction l1 generalizing l2 with
  | nil => simp
  | cons a as ih =>
      cases l2 with
      | nil => simp
      | cons b bs =>
          simp only [List.map_cons, List.zipWith_cons_cons, ih]
          congr 1
          simp [List.drop_succ_cons, Nat.succ_sub_succ]

theorem arraySplitAt_cons_shift {α : Type} (x : α) (xs : List α)
    (idxs : List Nat) :
    arraySplitAt (x :: xs) (idxs.map (· + 1)) =
      consHead x (arraySplitAt xs idxs) := by
  cases idxs with
  | nil =>
      simp [arraySplitAt, consHead, List.take_succ_cons, List.take_length]
  | cons i rest =>
      simp only [arraySplitAt, List.map_cons, consHead, List.cons_append,
        List.zipWith_cons_cons]
      congr 1
      rw [show ((i + 1) :: rest.map (· + 1)) = ((i :: rest).map (· + 1))
        from rfl]
      rw [show ((rest.map (· + 1)) ++ [(x :: xs).length]) =
          ((rest ++ [xs.length]).map (· + 1)) by simp]
      exact zipWith_map_succ x xs (i :: rest) (rest ++ [xs.length])

theorem arraySplitAt_map {α β : Type} (f : α → β) (xs : List α)
    (idxs : List Nat) :
    (arraySplitAt xs idxs).map (List.map f) = arraySplitAt (xs.map f) idxs := by
  simp only [arraySplitAt, List.map_zipWith, List.length_map]
  have hfun : (fun a b => List.map f ((xs.drop a).take (b - a)))
      = (fun a b => (((xs.map f).drop a)).take (b - a)) := by
    funext a b
    simp [List.map_take, List.map_drop]
  rw [hfun]

theorem directSegs_dropWhile (ls : List String) :
    directSegs ls = directSegs (ls.dropWhile (fun x => !segKeyword x)) := by
  induction ls with
  | nil => rfl
  | cons l ls ih =>
      cases hk : segKeyword l with
      | true => simp [List.dropWhile_cons, hk]
      | false =>
          rw [List.dropWhile_cons]
          simp only [hk, Bool.not_false, if_true]
          rw [directSegs]
          simp only [hk, Bool.false_eq_true, if_false]
          exact ih

theorem arraySplit_head_takeWhile (lines : List String) :
    (arraySplitAt lines (argwhereTrue (lines.map segKeyword))).headD []
      = lines.takeWhile (fun x => !segKeyword x) := by
  induction lines with
  | nil => simp [arraySplitAt, argwhereTrue]
  | cons l ls ih =>
      cases hk : segKeyword l with
      | true =>
          rw [List.map_cons, hk, argwhereTrue_cons_true,
            arraySplitAt_zero_cons]
          simp [List.takeWhile_cons, hk]
      | false =>
          rw [List.map_cons, hk, argwhereTrue_cons_false,
            arraySplitAt_cons_shift]
          cases hA : arraySplitAt ls (argwhereTrue (ls.map segKeyword)) with
          | nil => exact absurd hA (arraySplitAt_ne_nil _ _)
          | cons p ps =>
              rw [hA] at ih
              simp only [List.headD_cons] at ih
              simp [consHead, List.takeWhile_cons, hk, ih]

theorem arraySplit_drop_eq_directSegs (lines : List String) :
    (arraySplitAt lines (argwhereTrue (lines.map segKeyword))).drop 1
      = directSegs lines := by
  induction lines with
  | nil => simp [arraySplitAt, argwhereTrue, directSegs]
  | cons l ls ih =>
      cases hk : segKeyword l with
      | false =>
          rw [List.map_cons, hk, argwhereTrue_cons_false,
            arraySplitAt_cons_shift]
          cases hA : arraySplitAt ls (argwhereTrue (ls.map segKeyword)) with
          | nil => exact absurd hA (arraySplitAt_ne_nil _ _)
          | cons p ps =>
              rw [hA] at ih
              rw [directSegs]
              simp only [hk, Bool.false_eq_true, if_false]
              simpa [consHead] using ih
      | true =>
          rw [List.map_cons, hk, argwhereTrue_cons_true,
            arraySplitAt_zero_cons, arraySplitAt_cons_shift]
          cases hA : arraySplitAt ls (argwhereTrue (ls.map segKeyword)) with
          | nil => exact absurd hA (arraySplitAt_ne_nil _ _)
          | cons p ps =>
              have hp : p = ls.takeWhile (fun x => !segKeyword x) := by
                have h0 := arraySplit_head_takeWhile ls
                rw [hA] at h0
                simpa using h0
              have hps : ps = directSegs ls := by
                rw [hA] at ih
                simpa using ih
              rw [directSegs]
              simp only [hk, if_true]
              simp only [consHead, List.drop_succ_cons, List.drop_zero]
              rw [hp, hps, directSegs_dropWhile ls]

/-- Claim C8 (counterexample): segment starts are decided by splitting the
line on single space characters, not on whitespace. The indented line with
the import keyword has import as its first whitespace-delimited token, so
the claim's reading starts a new segment there, but the source mask does
not: the produced segments differ. -/
theorem segmentation_counterexample :
    funcSegments demoFuncCellsIndent = ["def f():\n  import os"]
    ∧ specSegmentsWs demoFuncCellsIndent =
        ["def f():\n    pass", "  import os"]
    ∧ funcSegments demoFuncCellsIndent ≠ specSegmentsWs demoFuncCellsIndent := by
  refine ⟨by decide, by decide, by decide⟩

/-- Claim C8 (amended): the sanitized lines are partitioned into segments
starting at every line whose first piece under single-space splitting is
exactly from, import or def (an indented or otherwise non-space-separated
keyword does not start a segment); lines before the first such line are
discarded; a segment ending with a colon after trimming trailing whitespace
receives a synthetic no-op body; the segments are evaluated in order in one
shared namespace whose named values become the children of the returned
Composite. In particular the two scenario lines produce exactly one segment,
the two lines joined by a newline, and that single segment is what the
evaluator receives, so an evaluator that binds f to a zero-argument function
returning 42 yields one child named f. -/
theorem segmentation_amended :
    (∀ cells : List PyVal, funcSegments cells =
      (directSegs (cells.map func_line_sanitize)).map
        (fun g => ensure_block_has_body (String.intercalate "\n" g)))
    ∧ funcSegments demoFuncCells = ["def f():\n    return 42"]
    ∧ (∀ execSeg : String → List (String × PyVal) → List (String × PyVal),
        create_function_objects execSeg demoFuncCells =
          .bricks none ((execSeg "def f():\n    return 42" []).map
            (fun pr => (.vStr pr.1, .brick none (.cell pr.2))))) := by
  have hmain : ∀ cells : List PyVal, funcSegments cells =
      (directSegs (cells.map func_line_sanitize)).map
        (fun g => ensure_block_has_body (String.intercalate "\n" g)) := by
    intro cells
    unfold funcSegments
    rw [show cells.map (fun c => segKeyword (func_line_sanitize c)) =
        (cells.map func_line_sanitize).map segKeyword by
      simp [List.map_map]]
    rw [← arraySplit_drop_eq_directSegs (cells.map func_line_sanitize)]
    rw [← arraySplitAt_map func_line_sanitize cells
      (argwhereTrue ((cells.map func_line_sanitize).map segKeyword))]
    simp [List.map_map, List.map_drop, Function.comp]
    rfl
  refine ⟨hmain, by decide, ?_⟩
  intro execSeg
  have hseg : funcSegments demoFuncCells = ["def f():\n    return 42"] := by
    decide
  simp [create_function_objects, hseg]

end Xlb
